/-
Verification of the wiremock mock-server core: a shallow embedding of the
matching/dispatch engine (`mock_set.rs`, `mounted_mock.rs`), the verification
model (`verification.rs`, `mock.rs`), the diagnostic request renderer
(`request.rs`) and the request handler's lock discipline
(`mock_server/hyper.rs`), together with proofs about the embedded code.

Modelling conventions:
- Rust `u64`/`u8`/`u16`/`usize` counters are `Nat` (no claim depends on
  wrap-around, and the counters only ever grow by one per observed request).
- Panics are modelled by `Option`/`none` results (`Index` out of generation,
  out-of-bounds slicing in the body renderer).
- Trait objects that hold user code (`Match`, `Respond`, `RespondErr`) are
  plain Lean functions, exactly as permissive as the Rust trait objects.
- `Duration` is an abstract `Nat`; `hyper::Response` is reduced to the
  observable pieces the claims mention (status code and body bytes).
-/
import Mathlib

namespace Wiremock

/-- Model of `BodyPrintLimit` from `request.rs`: cap (in bytes) on how much of
a request body the diagnostic renderer prints. -/
inductive BodyPrintLimit where
  | Limited (n : Nat)
  | Unlimited
  deriving DecidableEq

/-- Model of `Request` from `request.rs`: the normalized snapshot of one
incoming HTTP request.  The `HashMap<HeaderName, HeaderValues>` is modelled as
an association list (one entry per header name, values in order); the body is
the raw byte sequence, each byte a `Nat` below 256. -/
structure Request where
  url : String
  method : String
  headers : List (String × List String)
  body : List Nat
  body_print_limit : BodyPrintLimit

/-- Model of the crate-level `ErrorResponse = Box<dyn Error + Send + Sync>`:
an abstract error value produced by a `RespondErr` responder. -/
structure ErrorResponse where
  message : String
  deriving DecidableEq

/-- Model of `Times`/`TimesEnum` from `mock.rs`: the expectation range over
the number of matched requests.  The seven constructors are the seven
`TimesEnum` variants; the private wrapper struct is flattened away. -/
inductive Times where
  | Exact (e : Nat)
  | Unbounded
  | Range (start stop : Nat)
  | RangeFrom (start : Nat)
  | RangeTo (stop : Nat)
  | RangeToInclusive (stop : Nat)
  | RangeInclusive (start stop : Nat)
  deriving DecidableEq

/-- Model of `Times::contains` from `mock.rs`; each arm mirrors the
`RangeBounds::contains` semantics of the corresponding Rust range type. -/
def Times.contains (t : Times) (n_calls : Nat) : Bool :=
  match t with
  | .Exact e => n_calls == e
  | .Unbounded => true
  | .Range start stop => decide (start ≤ n_calls) && decide (n_calls < stop)
  | .RangeFrom start => decide (start ≤ n_calls)
  | .RangeTo stop => decide (n_calls < stop)
  | .RangeToInclusive stop => decide (n_calls ≤ stop)
  | .RangeInclusive start stop => decide (start ≤ n_calls) && decide (n_calls ≤ stop)

/-- Model of `impl Display for Times` from `mock.rs`. -/
def Times.display (t : Times) : String :=
  match t with
  | .Exact e => "== " ++ toString e
  | .Unbounded => "0 <= x"
  | .Range start stop => toString start ++ " <= x < " ++ toString stop
  | .RangeFrom start => toString start ++ " <= x"
  | .RangeTo stop => "0 <= x < " ++ toString stop
  | .RangeToInclusive stop => "0 <= x <= " ++ toString stop
  | .RangeInclusive start stop => toString start ++ " <= x <= " ++ toString stop

/-- Model of `ResponseTemplate` from `response_template.rs`.  The body
producer `body_fn` is reduced to the byte sequence it delivers; the mime is a
plain string; the delay is an abstract duration. -/
structure ResponseTemplate where
  mime : Option String
  status_code : Nat
  headers : List (String × List String)
  body : Option (List Nat)
  delay : Option Nat

/-- Observable part of the `hyper::Response<Full<Bytes>>` built by
`MountedMockSet::handle_request`: status code and body bytes. -/
structure HyperResponse where
  status : Nat
  body : List Nat
  deriving DecidableEq

/-- Model of `ResponseTemplate::generate_response`: the response carries the
template's status code and the bytes its body producer delivers (an absent
body yields a zero-length body). -/
def ResponseTemplate.generate_response (t : ResponseTemplate) : HyperResponse :=
  { status := t.status_code, body := t.body.getD [] }

/-- Model of `Mock` from `mock.rs`: matchers, responder (`Ok` responds with a
template, `Err` responds with a transport error), match cap, priority,
optional name and the expectation range. -/
structure Mock where
  matchers : List (Request → Bool)
  response : Except (Request → ErrorResponse) (Request → ResponseTemplate)
  max_n_matches : Option Nat
  priority : Nat
  name : Option String
  expectation_range : Times

/-- Model of `Mock::up_to_n_times`: sets the match cap; the `assert!(n > 0)`
panic is modelled by `none`. -/
def Mock.up_to_n_times (m : Mock) (n : Nat) : Option Mock :=
  if n = 0 then none else some { m with max_n_matches := some n }

/-- Model of `Mock::with_priority`: sets the priority; the `assert!(p > 0)`
panic is modelled by `none`. -/
def Mock.with_priority (m : Mock) (p : Nat) : Option Mock :=
  if p = 0 then none else some { m with priority := p }

/-- Model of `Mock::response_template`: run the responder on the request,
keeping the `Ok`/`Err` shape of the stored responder. -/
def Mock.response_template (m : Mock) (request : Request) :
    Except ErrorResponse ResponseTemplate :=
  match m.response with
  | .ok responder => .ok (responder request)
  | .error responder_err => .error (responder_err request)

/-- Model of `VerificationReport` from `verification.rs`. -/
structure VerificationReport where
  mock_name : Option String
  expectation_range : Times
  n_matched_requests : Nat
  position_in_set : Nat
  deriving DecidableEq

/-- Model of `VerificationReport::is_satisfied`. -/
def VerificationReport.is_satisfied (r : VerificationReport) : Bool :=
  r.expectation_range.contains r.n_matched_requests

/-- Model of `VerificationReport::error_message`, including the two `format!`
templates for the named and the anonymous case. -/
def VerificationReport.error_message (r : VerificationReport) : String :=
  match r.mock_name with
  | some mock_name =>
      mock_name ++ ".\n\tExpected range of matching incoming requests: "
        ++ r.expectation_range.display
        ++ "\n\tNumber of matched incoming requests: "
        ++ toString r.n_matched_requests
  | none =>
      "Mock #" ++ toString r.position_in_set
        ++ ".\n\tExpected range of matching incoming requests: "
        ++ r.expectation_range.display
        ++ "\n\tNumber of matched incoming requests: "
        ++ toString r.n_matched_requests

/-- Model of `VerificationOutcome` from `verification.rs`. -/
inductive VerificationOutcome where
  | Success
  | Failure (reports : List VerificationReport)
  deriving DecidableEq

/-- Model of `MountedMock` from `mounted_mock.rs`.  The
`Arc<(Notify, AtomicBool)>` satisfaction notifier is reduced to the boolean
flag (`notify_flag`); the `Notify` wake-up itself carries no state. -/
structure MountedMock where
  specification : Mock
  n_matched_requests : Nat
  position_in_set : Nat
  matched_requests : List Request
  notify_flag : Bool

/-- Model of `MountedMock::new`. -/
def MountedMock.new (specification : Mock) (position_in_set : Nat) : MountedMock :=
  { specification := specification
    n_matched_requests := 0
    position_in_set := position_in_set
    matched_requests := []
    notify_flag := false }

/-- Model of `MountedMock::verify`. -/
def MountedMock.verify (m : MountedMock) : VerificationReport :=
  { mock_name := m.specification.name
    n_matched_requests := m.n_matched_requests
    expectation_range := m.specification.expectation_range
    position_in_set := m.position_in_set }

/-- Model of `MountedMock::matches` (the stateful one, not the `Match`
trait): returns the match outcome together with the updated mock state. -/
def MountedMock.matches (m : MountedMock) (request : Request) : Bool × MountedMock :=
  if some m.n_matched_requests = m.specification.max_n_matches then
    -- Skip the actual check if we are already at our maximum of matched requests.
    (false, m)
  else
    let matched := m.specification.matchers.all fun matcher => matcher request
    if matched then
      let m1 := { m with
        n_matched_requests := m.n_matched_requests + 1
        matched_requests := m.matched_requests ++ [request] }
      let m2 := if m1.verify.is_satisfied then { m1 with notify_flag := true } else m1
      (true, m2)
    else
      (false, m)

/-- Model of `MountedMock::response_template`. -/
def MountedMock.response_template (m : MountedMock) (request : Request) :
    Except ErrorResponse ResponseTemplate :=
  m.specification.response_template request

/-- Model of `MountedMock::received_requests`. -/
def MountedMock.received_requests (m : MountedMock) : List Request :=
  m.matched_requests

/-- Model of `MountedMockState` from `mock_set.rs`. -/
inductive MountedMockState where
  | InScope
  | OutOfScope
  deriving DecidableEq

/-- Model of `MockId` from `mock_set.rs`: a raw vector index plus the
generation of the set at registration time. -/
structure MockId where
  index : Nat
  generation : Nat
  deriving DecidableEq

/-- Model of `MountedMockSet` from `mock_set.rs`. -/
structure MountedMockSet where
  mocks : List (MountedMock × MountedMockState)
  generation : Nat
  body_print_limit : BodyPrintLimit

/-- Model of `MountedMockSet::new`. -/
def MountedMockSet.new (body_print_limit : BodyPrintLimit) : MountedMockSet :=
  { mocks := [], generation := 0, body_print_limit := body_print_limit }

/-- Stable insertion step for `sort_by_key`: place `a` right before the first
element whose key is not smaller, which keeps registration order among equal
keys. -/
def insertByKey {α : Type} (key : α → Nat) (a : α) : List α → List α
  | [] => [a]
  | b :: bs => if key a ≤ key b then a :: b :: bs else b :: insertByKey key a bs

/-- Stable sort by a `Nat` key, modelling Rust's `Vec::sort_by_key` (a stable
sort; any two stable sorts agree, so this insertion sort is extensionally the
slice sort used by `handle_request`). -/
def sort_by_key {α : Type} (key : α → Nat) : List α → List α
  | [] => []
  | a :: rest => insertByKey key a (sort_by_key key rest)

/-- Priority key used by `handle_request`'s
`self.mocks.sort_by_key(|(m, _)| m.specification.priority)`. -/
def priorityKey (p : MountedMock × MountedMockState) : Nat :=
  p.1.specification.priority

/-- Model of the matching loop inside `MountedMockSet::handle_request`: walk
the (already sorted) vector, skip `OutOfScope` entries, call the stateful
`matches` on the rest and stop at the first match, returning the chosen
responder output together with the updated vector. -/
def handleRequestLoop (request : Request) :
    List (MountedMock × MountedMockState) →
      Option (Except ErrorResponse ResponseTemplate) × List (MountedMock × MountedMockState)
  | [] => (none, [])
  | (mock, mock_state) :: rest =>
    if mock_state = MountedMockState.OutOfScope then
      let r := handleRequestLoop request rest
      (r.1, (mock, mock_state) :: r.2)
    else
      let step := mock.matches request
      if step.1 then
        (some (step.2.response_template request), (step.2, mock_state) :: rest)
      else
        let r := handleRequestLoop request rest
        (r.1, (step.2, mock_state) :: r.2)

/-- The synthetic 404 returned when no mock matches: `StatusCode::NOT_FOUND`
with `Full::default()` (empty) body. -/
def not_found_response : HyperResponse :=
  { status := 404, body := [] }

/-- Model of `MountedMockSet::handle_request`: sort the vector in place by
priority (stable), scan for the first in-scope matching mock, and turn its
responder output into the `(response, optional delay)` pair, or the synthetic
404 when nothing matched.  The `Sleep` future is modelled by the delay
duration it would sleep for. -/
def MountedMockSet.handle_request (s : MountedMockSet) (request : Request) :
    Except ErrorResponse (HyperResponse × Option Nat) × MountedMockSet :=
  let sorted := sort_by_key priorityKey s.mocks
  let scan := handleRequestLoop request sorted
  let s' := { s with mocks := scan.2 }
  match scan.1 with
  | some (.ok response_template) =>
      (.ok (response_template.generate_response, response_template.delay), s')
  | some (.error err) => (.error err, s')
  | none => (.ok (not_found_response, none), s')

/-- Model of `MountedMockSet::register`: push a fresh `MountedMock` (with
`position_in_set` equal to the pre-push length) and hand back a `MockId`
holding the new vector index and the current generation.  The notifier handle
is omitted (its state lives in the mock's `notify_flag`). -/
def MountedMockSet.register (s : MountedMockSet) (mock : Mock) :
    MountedMockSet × MockId :=
  let n_registered_mocks := s.mocks.length
  let active_mock := MountedMock.new mock n_registered_mocks
  let mocks' := s.mocks ++ [(active_mock, MountedMockState.InScope)]
  ({ s with mocks := mocks' },
   { index := mocks'.length - 1, generation := s.generation })

/-- Model of `MountedMockSet::reset`. -/
def MountedMockSet.reset (s : MountedMockSet) : MountedMockSet :=
  { s with mocks := [], generation := s.generation + 1 }

/-- Model of `impl Index<MockId> for MountedMockSet` (and the identical
`IndexMut` guard): `none` models the panic, raised when the id's generation
differs from the set's current generation or (as Rust slice indexing would)
when the stored index is out of bounds. -/
def MountedMockSet.indexGet (s : MountedMockSet) (id_ : MockId) :
    Option (MountedMock × MountedMockState) :=
  if id_.generation ≠ s.generation then none else s.mocks[id_.index]?

/-- Model of `MountedMockSet::deactivate`: mark the indexed entry
`OutOfScope` in place; `none` models the panics of the `IndexMut` access. -/
def MountedMockSet.deactivate (s : MountedMockSet) (mock_id : MockId) :
    Option MountedMockSet :=
  if mock_id.generation ≠ s.generation then none
  else
    match s.mocks[mock_id.index]? with
    | none => none
    | some p =>
        some { s with mocks := s.mocks.set mock_id.index (p.1, MountedMockState.OutOfScope) }

/-- Model of `MountedMockSet::verify_all`: collect the reports of the
in-scope mocks whose expectation is not satisfied. -/
def MountedMockSet.verify_all (s : MountedMockSet) : VerificationOutcome :=
  let failed_verifications :=
    ((s.mocks.filter fun p => p.2 == MountedMockState.InScope).map
        fun p => p.1.verify).filter
      fun verification_report => ! verification_report.is_satisfied
  if failed_verifications.isEmpty then VerificationOutcome.Success
  else VerificationOutcome.Failure failed_verifications

/-- Model of `MountedMockSet::verify`: the report of one mock, addressed by
`MockId`; `none` models the indexing panic. -/
def MountedMockSet.verify (s : MountedMockSet) (mock_id : MockId) :
    Option VerificationReport :=
  (s.indexGet mock_id).map fun p => p.1.verify

/-- Model of `std::str::from_utf8` (an external collaborator of the renderer
in `request.rs`): decode a byte sequence as UTF-8, `none` on invalid input.
The fuel argument (instantiated with the list length, and decremented once
per decoded character while at least one byte is consumed) keeps the
recursion structural so that the definition evaluates by kernel reduction. -/
def utf8DecodeAux : Nat → List Nat → Option (List Char)
  | _, [] => some []
  | 0, _ :: _ => none
  | fuel + 1, b0 :: rest =>
    if b0 < 0x80 then
      (utf8DecodeAux fuel rest).map fun cs => Char.ofNat b0 :: cs
    else if b0 < 0xC2 then none
    else if b0 < 0xE0 then
      match rest with
      | b1 :: rest1 =>
        if 0x80 ≤ b1 && b1 < 0xC0 then
          (utf8DecodeAux fuel rest1).map fun cs =>
            Char.ofNat ((b0 - 0xC0) * 0x40 + (b1 - 0x80)) :: cs
        else none
      | [] => none
    else if b0 < 0xF0 then
      match rest with
      | b1 :: b2 :: rest2 =>
        let lo1 := if b0 = 0xE0 then 0xA0 else 0x80
        let hi1 := if b0 = 0xED then 0xA0 else 0xC0
        if lo1 ≤ b1 && b1 < hi1 && 0x80 ≤ b2 && b2 < 0xC0 then
          (utf8DecodeAux fuel rest2).map fun cs =>
            Char.ofNat ((b0 - 0xE0) * 0x1000 + (b1 - 0x80) * 0x40 + (b2 - 0x80)) :: cs
        else none
      | _ => none
    else if b0 < 0xF5 then
      match rest with
      | b1 :: b2 :: b3 :: rest3 =>
        let lo1 := if b0 = 0xF0 then 0x90 else 0x80
        let hi1 := if b0 = 0xF4 then 0x90 else 0xC0
        if lo1 ≤ b1 && b1 < hi1 && 0x80 ≤ b2 && b2 < 0xC0 && 0x80 ≤ b3 && b3 < 0xC0 then
          (utf8DecodeAux fuel rest3).map fun cs =>
            Char.ofNat
              ((b0 - 0xF0) * 0x40000 + (b1 - 0x80) * 0x1000 + (b2 - 0x80) * 0x40
                + (b3 - 0x80)) :: cs
        else none
      | _ => none
    else none

/-- Decode a whole byte sequence as UTF-8 (model of `std::str::from_utf8`). -/
def utf8Decode (l : List Nat) : Option (List Char) :=
  utf8DecodeAux l.length l

/-- The `"Body is likely binary …"` diagnostic line from
`impl Display for Request`. -/
def binaryBodyLine (body_len : Nat) : String :=
  "Body is likely binary (invalid utf-8) size is " ++ toString body_len ++ " bytes\n"

/-- The two note lines `impl Display for Request` prints after a truncated
body. -/
def truncationNote (body_len limit : Nat) : String :=
  "We truncated the body because it was too large: " ++ toString body_len
    ++ " bytes (limit: " ++ toString limit ++ " bytes)\n"
    ++ "Increase this limit by setting `WIREMOCK_BODY_PRINT_LIMIT`, or calling `MockServerBuilder::body_print_limit` when building your MockServer instance\n"

/-- Model of a full-body write in `impl Display for Request` (the arm taken
when the body is within the limit or the limit is `Unlimited`): print the
decoded body, or the binary-body line when it is not valid UTF-8. -/
def displayFullBody (body : List Nat) : String :=
  match utf8Decode body with
  | some cs => String.mk cs ++ "\n"
  | none => binaryBodyLine body.length

/-- Model of the truncation loop in `impl Display for Request`: try each
`end_byte` of the given index list in turn; `&self.body[..end_byte]` panics
(`none`) when `end_byte` exceeds the body length, otherwise the first valid
UTF-8 prefix is written (with the truncation note if it did not reach the end
of the body) and the loop stops.  If the loop finishes without writing, the
binary-body line is printed. -/
def truncScan (body : List Nat) (limit : Nat) : List Nat → Option String
  | [] => some (binaryBodyLine body.length)
  | end_byte :: more =>
    if end_byte ≤ body.length then
      match utf8Decode (body.take end_byte) with
      | some cs =>
          some (String.mk cs ++ "\n"
            ++ (if end_byte < body.length then truncationNote body.length limit else ""))
      | none => truncScan body limit more
    else none

/-- Model of the body section of `impl Display for Request`: the `Limited`
arm with an oversized body runs the truncation loop over
`limit..(limit + 4).max(body.len())` (the index list below); every other case
writes the full body. -/
def displayBody (body : List Nat) (body_print_limit : BodyPrintLimit) : Option String :=
  match body_print_limit with
  | BodyPrintLimit.Limited limit =>
    if body.length > limit then
      truncScan body limit (List.range' limit (max (limit + 4) body.length - limit))
    else some (displayFullBody body)
  | BodyPrintLimit.Unlimited => some (displayFullBody body)

/-- Header block of `impl Display for Request`: one `name: v1,v2` line per
header, values joined by commas. -/
def displayHeaders (headers : List (String × List String)) : String :=
  headers.foldl
    (fun acc h => acc ++ h.1 ++ ": " ++ String.intercalate "," h.2 ++ "\n") ""

/-- Model of `impl Display for Request` from `request.rs` (the diagnostic
request renderer, also reached through `print_with_limit`): the request line,
the headers, then the body section; `none` models a panic while rendering. -/
def Request.display (r : Request) : Option String :=
  (displayBody r.body r.body_print_limit).map fun body_section =>
    r.method ++ " " ++ r.url ++ "\n" ++ displayHeaders r.headers ++ body_section

/-- Steps of `HyperRequestHandler::call` from `mock_server/hyper.rs` that are
relevant to the lock discipline. -/
inductive ServerEvent where
  | acquireWriteLock
  | computeResponse
  | releaseWriteLock
  | awaitDelay
  | respondToClient
  deriving DecidableEq

/-- Control-flow trace of `HyperRequestHandler::call`, one event per step of
the handler body: `server_state.write().await` (acquire), `handle_request`
(compute), the write-guard temporary dropping at the end of that statement
(release), then `delay.await` when `handle_request` returned a delay, then
returning the response.  The delay duration itself is irrelevant to the lock
discipline and is omitted from the event. -/
def handlerTrace (has_delay : Bool) : List ServerEvent :=
  [ServerEvent.acquireWriteLock, ServerEvent.computeResponse, ServerEvent.releaseWriteLock]
    ++ (if has_delay then [ServerEvent.awaitDelay] else [])
    ++ [ServerEvent.respondToClient]

/-- Number of write-lock acquisitions minus releases seen in the first `i`
events, i.e. whether the handler still holds the write lock after step `i`. -/
def writeLockHeldAt (trace : List ServerEvent) (i : Nat) : Bool :=
  decide ((trace.take i).count ServerEvent.releaseWriteLock
    < (trace.take i).count ServerEvent.acquireWriteLock)

/-- Eligibility test exactly as the scan in `handle_request` performs it: the
entry is in scope, the cap equality test `Some(n_matched) == max_n_matches`
fails, and every matcher accepts the request. -/
def mockEligible (request : Request) (p : MountedMock × MountedMockState) : Bool :=
  (p.2 == MountedMockState.InScope)
    && !(some p.1.n_matched_requests == p.1.specification.max_n_matches)
    && p.1.specification.matchers.all fun matcher => matcher request

/-- The spec's wording of the cap test: the number of matches so far is still
strictly below the `up_to_n_times` cap (trivially true without a cap). -/
def capNotReached (m : MountedMock) : Bool :=
  match m.specification.max_n_matches with
  | none => true
  | some k => decide (m.n_matched_requests < k)

/-- Eligibility in the spec's wording: in scope, cap not yet reached, and all
matchers return true. -/
def mockEligibleSpec (request : Request) (p : MountedMock × MountedMockState) : Bool :=
  (p.2 == MountedMockState.InScope) && capNotReached p.1
    && p.1.specification.matchers.all fun matcher => matcher request

/-- The `(response, optional delay)` pair that `handle_request` builds from a
given mock's responder output on a request. -/
def responseOf (p : MountedMock × MountedMockState) (request : Request) :
    Except ErrorResponse (HyperResponse × Option Nat) :=
  match p.1.response_template request with
  | .ok t => .ok (t.generate_response, t.delay)
  | .error e => .error e

/-- Iterate the stateful `MountedMock::matches` over a sequence of incoming
requests, collecting the outcomes and threading the mock state. -/
def runMatches (m : MountedMock) : List Request → List Bool × MountedMock
  | [] => ([], m)
  | r :: rs =>
    let step := m.matches r
    let rest := runMatches step.2 rs
    (step.1 :: rest.1, rest.2)

/-- The counter invariant every reachable `MountedMock` maintains: the match
counter equals the number of recorded requests, and it never exceeds the
`max_n_matches` cap when one is set. -/
def CounterInv (m : MountedMock) : Prop :=
  m.n_matched_requests = m.matched_requests.length
    ∧ ∀ k, m.specification.max_n_matches = some k → m.n_matched_requests ≤ k

/- Concrete fixtures used by witnesses and counterexamples. -/

/-- A minimal request used as concrete input. -/
def req0 : Request :=
  { url := "http://localhost/", method := "GET", headers := [],
    body := [], body_print_limit := BodyPrintLimit.Unlimited }

/-- A plain 200 template with no body and no delay. -/
def rt200 : ResponseTemplate :=
  { mime := none, status_code := 200, headers := [], body := none, delay := none }

/-- A mock whose single matcher rejects everything, at the default priority 5. -/
def mockPrio5 : Mock :=
  { matchers := [fun _ => false], response := Except.ok fun _ => rt200,
    max_n_matches := none, priority := 5, name := some "A",
    expectation_range := Times.Unbounded }

/-- Same matcher and responder as `mockPrio5` but at the highest priority 1. -/
def mockPrio1 : Mock :=
  { mockPrio5 with priority := 1, name := some "B" }

/-- A mock that matches every request. -/
def mockMatchAll : Mock :=
  { mockPrio5 with matchers := [fun _ => true], name := some "C" }

/-- A one-mock set holding `mockMatchAll`, used as concrete witness input. -/
def setMatchAll : MountedMockSet :=
  ((MountedMockSet.new BodyPrintLimit.Unlimited).register mockMatchAll).1

/-- Set with `mockPrio5` registered first and `mockPrio1` second (still at
generation 0); `handle_request` will reorder the two. -/
def setTwoPriorities : MountedMockSet :=
  (((MountedMockSet.new BodyPrintLimit.Unlimited).register mockPrio5).1.register mockPrio1).1

/-- The `MockId` issued for `mockPrio5` in `setTwoPriorities`: vector index 0
at generation 0. -/
def mockIdFirst : MockId :=
  ((MountedMockSet.new BodyPrintLimit.Unlimited).register mockPrio5).2

/-- A mounted copy of `mockMatchAll` that has already matched once and whose
cap is 1 (the state reached after `up_to_n_times(1)` and one match). -/
def mountedExhausted : MountedMock :=
  { specification := { mockMatchAll with max_n_matches := some 1 }
    n_matched_requests := 1
    position_in_set := 0
    matched_requests := [req0]
    notify_flag := false }

/-- An in-scope mounted mock whose expectation `== 1` is unsatisfied at zero
matches, used to exercise the `Failure` arm of `verify_all`. -/
def mountedUnsatisfied : MountedMock :=
  MountedMock.new { mockPrio5 with expectation_range := Times.Exact 1 } 0

/-- A one-element set containing `mountedUnsatisfied`. -/
def setUnsatisfied : MountedMockSet :=
  { mocks := [(mountedUnsatisfied, MountedMockState.InScope)]
    generation := 0
    body_print_limit := BodyPrintLimit.Unlimited }

/-- A binary request body of length `limit + 1` for the limit 1: the failing
input of the truncation loop in `impl Display for Request`. -/
def reqBinary : Request :=
  { url := "http://localhost/", method := "POST", headers := [],
    body := [255, 255], body_print_limit := BodyPrintLimit.Limited 1 }

/- Shared lemmas about `MountedMock.matches`. -/

/-- The outcome of the stateful `matches` is the conjunction of the cap test
and the matcher conjunction. -/
theorem matches_fst (m : MountedMock) (r : Request) :
    (m.matches r).1 =
      ((!(some m.n_matched_requests == m.specification.max_n_matches))
        && m.specification.matchers.all fun matcher => matcher r) := by
  unfold MountedMock.matches
  by_cases hcap : some m.n_matched_requests = m.specification.max_n_matches
  · simp [hcap]
  · by_cases hall : m.specification.matchers.all (fun matcher => matcher r)
    · simp [hcap, hall]
    · simp [hcap, hall]

/-- The stateful `matches` never changes the immutable specification. -/
theorem matches_specification (m : MountedMock) (r : Request) :
    ((m.matches r).2).specification = m.specification := by
  unfold MountedMock.matches
  by_cases hcap : some m.n_matched_requests = m.specification.max_n_matches
  · simp [hcap]
  · by_cases hall : m.specification.matchers.all (fun matcher => matcher r)
    · simp only [hcap, hall, if_true, if_false, if_neg, if_pos]
      split <;> rfl
    · simp [hcap, hall]

/-- The responder is driven by the specification alone, so the response is
unaffected by the state update `matches` performs. -/
theorem matches_response_template (m : MountedMock) (r r' : Request) :
    ((m.matches r).2).response_template r' = m.response_template r' := by
  unfold MountedMock.response_template
  rw [matches_specification]

/-- A `matches` call that returns `false` leaves the mock untouched. -/
theorem matches_false_state (m : MountedMock) (r : Request)
    (h : (m.matches r).1 = false) : (m.matches r).2 = m := by
  unfold MountedMock.matches at h ⊢
  by_cases hcap : some m.n_matched_requests = m.specification.max_n_matches
  · simp [hcap]
  · by_cases hall : m.specification.matchers.all (fun matcher => matcher r)
    · simp [hcap, hall] at h
    · simp [hcap, hall]

/-- A `matches` call that returns `true` increments the counter by one and
appends exactly the matched request. -/
theorem matches_true_state (m : MountedMock) (r : Request)
    (h : (m.matches r).1 = true) :
    ((m.matches r).2).n_matched_requests = m.n_matched_requests + 1
      ∧ ((m.matches r).2).matched_requests = m.matched_requests ++ [r] := by
  unfold MountedMock.matches at h ⊢
  by_cases hcap : some m.n_matched_requests = m.specification.max_n_matches
  · simp [hcap] at h
  · by_cases hall : m.specification.matchers.all (fun matcher => matcher r)
    · simp only [hcap, hall, if_true, if_false, if_neg, if_pos]
      constructor <;> (split <;> rfl)
    · simp [hcap, hall] at h

/- Shared lemmas about the stable sort `sort_by_key`. -/

/-- Inserting with `insertByKey` is a permutation of consing. -/
theorem insertByKey_perm {α : Type} (key : α → Nat) (a : α) (l : List α) :
    List.Perm (insertByKey key a l) (a :: l) := by
  induction l with
  | nil => exact List.Perm.refl _
  | cons b bs ih =>
    unfold insertByKey
    by_cases h : key a ≤ key b
    · simp [h]
    · simp only [h, if_neg, if_false]
      exact (List.Perm.cons b ih).trans (List.Perm.swap a b bs)

/-- `sort_by_key` permutes its input. -/
theorem sort_by_key_perm {α : Type} (key : α → Nat) (l : List α) :
    List.Perm (sort_by_key key l) l := by
  induction l with
  | nil => exact List.Perm.refl _
  | cons a rest ih =>
    exact (insertByKey_perm key a (sort_by_key key rest)).trans (List.Perm.cons a ih)

/-- Membership is unchanged by the stable sort. -/
theorem mem_sort_by_key {α : Type} (key : α → Nat) (l : List α) (x : α) :
    x ∈ sort_by_key key l ↔ x ∈ l :=
  (sort_by_key_perm key l).mem_iff

/-- `insertByKey` preserves sortedness. -/
theorem insertByKey_pairwise {α : Type} (key : α → Nat) (a : α) (l : List α)
    (h : List.Pairwise (fun x y => key x ≤ key y) l) :
    List.Pairwise (fun x y => key x ≤ key y) (insertByKey key a l) := by
  induction l with
  | nil => simp [insertByKey]
  | cons b bs ih =>
    rw [List.pairwise_cons] at h
    unfold insertByKey
    by_cases hab : key a ≤ key b
    · rw [if_pos hab, List.pairwise_cons]
      refine ⟨?_, List.pairwise_cons.mpr h⟩
      intro x hx
      rcases List.mem_cons.mp hx with hx | hx
      · exact hx ▸ hab
      · exact le_trans hab (h.1 x hx)
    · rw [if_neg hab, List.pairwise_cons]
      refine ⟨?_, ih h.2⟩
      intro x hx
      rcases List.mem_cons.mp ((insertByKey_perm key a bs).mem_iff.mp hx) with hx | hx
      · exact hx ▸ le_of_lt (Nat.lt_of_not_le hab)
      · exact h.1 x hx

/-- The stable sort produces a list ordered by the key. -/
theorem sort_by_key_pairwise {α : Type} (key : α → Nat) (l : List α) :
    List.Pairwise (fun x y => key x ≤ key y) (sort_by_key key l) := by
  induction l with
  | nil => simp [sort_by_key]
  | cons a rest ih => exact insertByKey_pairwise key a _ ih

/-- Stability of the insertion step: elements of any fixed key keep their
relative order (the inserted element goes in front of its key class). -/
theorem insertByKey_filter {α : Type} (key : α → Nat) (a : α) (l : List α) (k : Nat) :
    (insertByKey key a l).filter (fun x => key x == k) =
      (a :: l).filter (fun x => key x == k) := by
  induction l with
  | nil => rfl
  | cons b bs ih =>
    unfold insertByKey
    by_cases hab : key a ≤ key b
    · simp [hab]
    · rw [if_neg hab]
      by_cases ha : key a = k
      · have hb : ¬ key b = k := by
          intro hbk
          exact hab (le_of_eq (ha.trans hbk.symm))
        simp [List.filter_cons, ha, hb, ih]
      · by_cases hb : key b = k
        · simp [List.filter_cons, ha, hb, ih]
        · simp [List.filter_cons, ha, hb, ih]

/-- Stability of the sort: for every key value, filtering the sorted list
yields exactly the filtered input, i.e. ties keep insertion order. -/
theorem sort_by_key_filter {α : Type} (key : α → Nat) (l : List α) (k : Nat) :
    (sort_by_key key l).filter (fun x => key x == k) =
      l.filter (fun x => key x == k) := by
  induction l with
  | nil => rfl
  | cons a rest ih =>
    unfold sort_by_key
    rw [insertByKey_filter]
    by_cases ha : key a = k
    · simp [List.filter_cons, ha, ih]
    · simp [List.filter_cons, ha, ih]

/- Shared lemmas about the scan loop of `handle_request`. -/

/-- On an in-scope entry, the scan's stateful `matches` outcome coincides
with the pure eligibility test. -/
theorem mockEligible_matches (request : Request) (mock : MountedMock) :
    mockEligible request (mock, MountedMockState.InScope) = (mock.matches request).1 := by
  rw [matches_fst]
  simp [mockEligible]

/-- The response selected by the scan loop is the responder output of the
first eligible entry of the (sorted) vector. -/
theorem handleRequestLoop_find (request : Request)
    (l : List (MountedMock × MountedMockState)) :
    (handleRequestLoop request l).1 =
      (l.find? (mockEligible request)).map fun p => p.1.response_template request := by
  induction l with
  | nil => rfl
  | cons p rest ih =>
    obtain ⟨mock, st⟩ := p
    unfold handleRequestLoop
    by_cases hst : st = MountedMockState.OutOfScope
    · subst hst
      have he : mockEligible request (mock, MountedMockState.OutOfScope) = false := by
        simp [mockEligible]
      simp [List.find?, he, ih]
    · have hst' : st = MountedMockState.InScope := by cases st <;> simp_all
      subst hst'
      have he := mockEligible_matches request mock
      by_cases hm : (mock.matches request).1
      · simp [hm, List.find?, he, matches_response_template]
      · simp only [Bool.not_eq_true] at hm
        simp [hm, List.find?, he, ih, hst]

/-- `find?` only looks at the predicate's values on list members. -/
theorem find?_congr_mem {α : Type} {p q : α → Bool} (l : List α)
    (h : ∀ x ∈ l, p x = q x) : l.find? p = l.find? q := by
  induction l with
  | nil => rfl
  | cons a rest ih =>
    have ha := h a (List.mem_cons_self a rest)
    by_cases hp : p a
    · simp [List.find?, hp, ha ▸ hp]
    · simp only [Bool.not_eq_true] at hp
      have hq : q a = false := ha ▸ hp
      simp [List.find?, hp, hq]
      exact ih fun x hx => h x (List.mem_cons_of_mem a hx)

/-- Under the counter invariant, the scan's cap test (`count ≠ cap`) agrees
with the spec's wording (`count < cap`). -/
theorem mockEligible_eq_spec (request : Request) (p : MountedMock × MountedMockState)
    (hp : ∀ k, p.1.specification.max_n_matches = some k →
      p.1.n_matched_requests ≤ k) :
    mockEligible request p = mockEligibleSpec request p := by
  have hbool : (!(some p.1.n_matched_requests == p.1.specification.max_n_matches))
      = capNotReached p.1 := by
    unfold capNotReached
    cases hmax : p.1.specification.max_n_matches with
    | none => simp
    | some k =>
      have hle := hp k hmax
      by_cases hlt : p.1.n_matched_requests < k
      · simp [hlt, Nat.ne_of_lt hlt]
      · have heq : p.1.n_matched_requests = k := le_antisymm hle (Nat.le_of_not_lt hlt)
        simp [hlt, heq]
  unfold mockEligible mockEligibleSpec
  rw [hbool]

/-- C1: for every mounted mock set whose counters respect their caps and
every request, `handle_request` returns the response produced by the
responder of the first mock of the priority-ordered view — which is a
permutation of the set, ordered by ascending priority, with ties kept in
insertion order — that is in scope, whose matchers all return true and whose
`max_n_matches` cap is not yet reached; when no mock qualifies the synthetic
404 is returned instead, so no later mock's responder is ever consulted. -/
theorem handle_request_first_match (s : MountedMockSet) (request : Request)
    (hcap : ∀ p ∈ s.mocks, ∀ k, p.1.specification.max_n_matches = some k →
      p.1.n_matched_requests ≤ k) :
    ((s.handle_request request).1 =
      match (sort_by_key priorityKey s.mocks).find? (mockEligibleSpec request) with
      | some p => responseOf p request
      | none => Except.ok (not_found_response, none))
    ∧ List.Perm (sort_by_key priorityKey s.mocks) s.mocks
    ∧ List.Pairwise (fun p q => priorityKey p ≤ priorityKey q)
        (sort_by_key priorityKey s.mocks)
    ∧ ∀ pr : Nat,
        (sort_by_key priorityKey s.mocks).filter (fun p => priorityKey p == pr) =
          s.mocks.filter fun p => priorityKey p == pr := by
  refine ⟨?_, sort_by_key_perm _ _, sort_by_key_pairwise _ _,
    fun pr => sort_by_key_filter _ _ _⟩
  have hscan := handleRequestLoop_find request (sort_by_key priorityKey s.mocks)
  have hcong : (sort_by_key priorityKey s.mocks).find? (mockEligible request)
      = (sort_by_key priorityKey s.mocks).find? (mockEligibleSpec request) :=
    find?_congr_mem _ fun p hp =>
      mockEligible_eq_spec request p (hcap p ((mem_sort_by_key _ _ _).mp hp))
  rw [hcong] at hscan
  simp only [MountedMockSet.handle_request]
  cases hfind : (sort_by_key priorityKey s.mocks).find? (mockEligibleSpec request) with
  | none =>
    rw [hfind] at hscan
    simp [hscan]
  | some p =>
    rw [hfind] at hscan
    cases hrt : p.1.response_template request with
    | ok t => simp [hscan, hrt, responseOf]
    | error e => simp [hscan, hrt, responseOf]

/-- Witness for C1: the first-match characterization evaluated on the
concrete one-mock set `setMatchAll` and the request `req0`. -/
theorem handle_request_first_match_witness :
    (setMatchAll.handle_request req0).1 =
      match (sort_by_key priorityKey setMatchAll.mocks).find? (mockEligibleSpec req0) with
      | some p => responseOf p req0
      | none => Except.ok (not_found_response, none) :=
  (handle_request_first_match setMatchAll req0 (by
    intro p hp k hk
    simp [setMatchAll, MountedMockSet.new, MountedMockSet.register, MountedMock.new,
      mockMatchAll, mockPrio5] at hp
    rw [hp] at hk
    simp at hk)).1

/-- C2: counterexample.  Register a priority-5 mock first (its `MockId` is
`(index 0, generation 0)` and its `position_in_set` is 0) and a priority-1
mock second, then let `handle_request` process one request: the in-place
`sort_by_key` reorders the backing vector, and indexing by the first `MockId`
now reaches the mock with `position_in_set` 1 — a different mock than the one
the id was issued for, although no `reset` happened. -/
theorem mock_id_misaddressed_after_sort :
    mockIdFirst = { index := 0, generation := 0 }
    ∧ ((setTwoPriorities.indexGet mockIdFirst).map fun p => p.1.position_in_set)
        = some 0
    ∧ (((setTwoPriorities.handle_request req0).2.indexGet mockIdFirst).map
        fun p => p.1.position_in_set) = some 1 :=
  ⟨rfl, rfl, rfl⟩

/-- C3: once a mock built with `up_to_n_times(k)` has `n_matched = k`, every
subsequent `matches` call returns no-match and leaves the state untouched —
for a single request, for any further request sequence, and independently of
what the matchers are (so the matchers are never consulted). -/
theorem matches_after_cap_exhausted (m0 spec : Mock) (k : Nat) (m : MountedMock)
    (hbuilt : m0.up_to_n_times k = some spec)
    (hspec : m.specification = spec)
    (hcount : m.n_matched_requests = k) :
    (∀ r : Request, m.matches r = (false, m))
    ∧ (∀ rs : List Request, runMatches m rs = (rs.map fun _ => false, m))
    ∧ ∀ altMatchers : List (Request → Bool), ∀ r : Request,
        MountedMock.matches
            { m with specification := { spec with matchers := altMatchers } } r
          = (false, { m with specification := { spec with matchers := altMatchers } }) := by
  have hspec' : spec = { m0 with max_n_matches := some k } := by
    unfold Mock.up_to_n_times at hbuilt
    by_cases hk : k = 0
    · rw [if_pos hk] at hbuilt
      exact absurd hbuilt (by simp)
    · rw [if_neg hk] at hbuilt
      exact (Option.some.inj hbuilt).symm
  have hmax : m.specification.max_n_matches = some k := by rw [hspec, hspec']
  have hone : ∀ r : Request, m.matches r = (false, m) := by
    intro r
    unfold MountedMock.matches
    rw [if_pos (by rw [hmax, hcount])]
  refine ⟨hone, ?_, ?_⟩
  · intro rs
    induction rs with
    | nil => rfl
    | cons r rs ih => simp [runMatches, hone r, ih]
  · intro altMatchers r
    unfold MountedMock.matches
    rw [if_pos ?_]
    show some m.n_matched_requests = ({ spec with matchers := altMatchers } : Mock).max_n_matches
    rw [hcount, hspec']

/-- Witness for C3: `mountedExhausted` (cap 1, one match recorded, matcher
accepting everything) rejects the concrete request `req0` without touching
its state. -/
theorem matches_after_cap_exhausted_witness :
    mountedExhausted.matches req0 = (false, mountedExhausted) :=
  (matches_after_cap_exhausted mockMatchAll
    { mockMatchAll with max_n_matches := some 1 } 1 mountedExhausted rfl rfl rfl).1 req0

/-- C4: when no in-scope mock matches the request — in particular for the
empty mock set — `handle_request` answers with the synthetic 404: status
code 404, empty body and no delay. -/
theorem handle_request_no_match_404 (s : MountedMockSet) (request : Request)
    (hnone : ∀ p ∈ s.mocks, p.2 = MountedMockState.InScope →
      (p.1.matches request).1 = false) :
    (s.handle_request request).1 = Except.ok (not_found_response, none)
    ∧ not_found_response.status = 404 ∧ not_found_response.body = [] := by
  refine ⟨?_, rfl, rfl⟩
  have hfind : (sort_by_key priorityKey s.mocks).find? (mockEligible request) = none := by
    rw [List.find?_eq_none]
    intro p hp
    have hpmem := (mem_sort_by_key _ _ _).mp hp
    obtain ⟨mock, st⟩ := p
    cases st with
    | OutOfScope => simp [mockEligible]
    | InScope =>
      have hfalse := hnone (mock, MountedMockState.InScope) hpmem rfl
      rw [← mockEligible_matches] at hfalse
      simp [hfalse]
  have hscan := handleRequestLoop_find request (sort_by_key priorityKey s.mocks)
  rw [hfind] at hscan
  simp only [MountedMockSet.handle_request]
  simp [hscan]

/-- Witness for C4: the empty mock set answers `req0` with the 404. -/
theorem handle_request_no_match_404_witness :
    ((MountedMockSet.new BodyPrintLimit.Unlimited).handle_request req0).1
      = Except.ok (not_found_response, none) :=
  (handle_request_no_match_404 (MountedMockSet.new BodyPrintLimit.Unlimited) req0
    (by intro p hp; simp [MountedMockSet.new] at hp)).1

/-- C5: `verify_all` returns `Success` exactly when every in-scope mock's
expectation range contains its match count; otherwise it returns `Failure`
carrying precisely one report (in order) for each unsatisfied in-scope mock —
so out-of-scope mocks never contribute a report. -/
theorem verify_all_characterization (s : MountedMockSet) :
    (s.verify_all = VerificationOutcome.Success ↔
      ∀ p ∈ s.mocks, p.2 = MountedMockState.InScope →
        p.1.specification.expectation_range.contains p.1.n_matched_requests = true)
    ∧ ∀ reports, s.verify_all = VerificationOutcome.Failure reports →
        reports = (s.mocks.filter fun p =>
            (p.2 == MountedMockState.InScope)
              && !(p.1.specification.expectation_range.contains
                    p.1.n_matched_requests)).map
          fun p => p.1.verify := by
  have hflt : (((s.mocks.filter fun p => p.2 == MountedMockState.InScope).map
        fun p => p.1.verify).filter fun r => ! r.is_satisfied)
      = (s.mocks.filter fun p =>
          (p.2 == MountedMockState.InScope)
            && !(p.1.specification.expectation_range.contains
                  p.1.n_matched_requests)).map
        fun p => p.1.verify := by
    rw [List.filter_map, List.filter_filter]
    refine congrArg
      (List.map fun p : MountedMock × MountedMockState => p.1.verify)
      (List.filter_congr ?_)
    intro a _
    simp [Function.comp, VerificationReport.is_satisfied, MountedMock.verify, Bool.and_comm]
  have hva : s.verify_all =
      if ((s.mocks.filter fun p =>
            (p.2 == MountedMockState.InScope)
              && !(p.1.specification.expectation_range.contains
                    p.1.n_matched_requests)).map
          fun p => p.1.verify).isEmpty
      then VerificationOutcome.Success
      else VerificationOutcome.Failure ((s.mocks.filter fun p =>
            (p.2 == MountedMockState.InScope)
              && !(p.1.specification.expectation_range.contains
                    p.1.n_matched_requests)).map
          fun p => p.1.verify) := by
    simp only [MountedMockSet.verify_all]
    rw [hflt]
  have hempty : ((s.mocks.filter fun p =>
          (p.2 == MountedMockState.InScope)
            && !(p.1.specification.expectation_range.contains
                  p.1.n_matched_requests)).map
        fun p => p.1.verify) = [] ↔
      ∀ p ∈ s.mocks, p.2 = MountedMockState.InScope →
        p.1.specification.expectation_range.contains p.1.n_matched_requests = true := by
    rw [List.map_eq_nil_iff, List.filter_eq_nil_iff]
    constructor
    · intro h p hp hscope
      have hnp := h p hp
      simp [hscope] at hnp
      exact hnp
    · intro h p hp
      by_cases hscope : p.2 = MountedMockState.InScope
      · simp [hscope, h p hp hscope]
      · simp [hscope]
  by_cases hLE : ((s.mocks.filter fun p =>
        (p.2 == MountedMockState.InScope)
          && !(p.1.specification.expectation_range.contains
                p.1.n_matched_requests)).map
      fun p => p.1.verify) = []
  · rw [hLE] at hva
    simp at hva
    constructor
    · rw [hva]
      simp only [true_iff]
      exact hempty.mp hLE
    · intro reports hrep
      rw [hva] at hrep
      exact absurd hrep (by simp)
  · have hne : (((s.mocks.filter fun p =>
          (p.2 == MountedMockState.InScope)
            && !(p.1.specification.expectation_range.contains
                  p.1.n_matched_requests)).map
        fun p => p.1.verify)).isEmpty = false := by
      rw [Bool.eq_false_iff]
      intro hc
      exact hLE (List.isEmpty_iff.mp hc)
    rw [hne] at hva
    simp only [Bool.false_eq_true, if_false] at hva
    constructor
    · rw [hva]
      constructor
      · intro h
        exact absurd h (by simp)
      · intro h
        exact absurd (hempty.mpr h) hLE
    · intro reports hrep
      rw [hva] at hrep
      exact ((VerificationOutcome.Failure.injEq _ _).mp hrep).symm

/-- Witness for C5: the characterization applied to the concrete set with one
unsatisfied in-scope mock, whose `verify_all` reports exactly that mock. -/
theorem verify_all_characterization_witness :
    setUnsatisfied.verify_all = VerificationOutcome.Failure [mountedUnsatisfied.verify]
    ∧ [mountedUnsatisfied.verify] = (setUnsatisfied.mocks.filter fun p =>
        (p.2 == MountedMockState.InScope)
          && !(p.1.specification.expectation_range.contains
                p.1.n_matched_requests)).map fun p => p.1.verify :=
  ⟨rfl, (verify_all_characterization setUnsatisfied).2 [mountedUnsatisfied.verify] rfl⟩

/-- C6: indexing a `MountedMockSet` with a `MockId` minted before the last
`reset` (its generation differs from the set's) panics, and with a matching
generation it returns the entry stored at the id's vector index. -/
theorem index_generation_guard (s : MountedMockSet) (id_ : MockId) :
    (id_.generation ≠ s.generation → s.indexGet id_ = none)
    ∧ (id_.generation = s.generation → ∀ h : id_.index < s.mocks.length,
        s.indexGet id_ = some (s.mocks.get ⟨id_.index, h⟩)) := by
  constructor
  · intro h
    unfold MountedMockSet.indexGet
    rw [if_pos h]
  · intro h hlt
    unfold MountedMockSet.indexGet
    rw [if_neg (by simp [h])]
    exact List.getElem?_eq_getElem hlt

/-- Witness for C6: a pre-reset id panics against the reset set, and the
same id reads back entry 0 of the two-mock set at generation 0. -/
theorem index_generation_guard_witness :
    ((MountedMockSet.new BodyPrintLimit.Unlimited).reset.indexGet mockIdFirst = none)
    ∧ setTwoPriorities.indexGet mockIdFirst
        = some (setTwoPriorities.mocks.get ⟨0, by simp [setTwoPriorities,
            MountedMockSet.new, MountedMockSet.register]⟩) :=
  ⟨(index_generation_guard _ mockIdFirst).1 (by decide),
    (index_generation_guard setTwoPriorities mockIdFirst).2 rfl _⟩

/-- C7: the diagnostic message of a verification report is the mock name (or
`Mock #position`) followed by the expected-range line and the matched-count
line, with the range rendered by the seven closed forms of the `Times`
variants. -/
theorem error_message_format (r : VerificationReport) :
    r.error_message =
      (match r.mock_name with
       | some mock_name => mock_name
       | none => "Mock #" ++ toString r.position_in_set)
      ++ ".\n\tExpected range of matching incoming requests: "
      ++ (match r.expectation_range with
          | Times.Exact k => "== " ++ toString k
          | Times.Unbounded => "0 <= x"
          | Times.Range a b => toString a ++ " <= x < " ++ toString b
          | Times.RangeFrom a => toString a ++ " <= x"
          | Times.RangeTo b => "0 <= x < " ++ toString b
          | Times.RangeToInclusive b => "0 <= x <= " ++ toString b
          | Times.RangeInclusive a b => toString a ++ " <= x <= " ++ toString b)
      ++ "\n\tNumber of matched incoming requests: "
      ++ toString r.n_matched_requests := by
  obtain ⟨mock_name, range, n, pos⟩ := r
  cases mock_name <;> cases range <;> rfl

/-- C8: counterexample.  The truncation loop of the renderer iterates
`end_byte` over `limit..(limit + 4).max(body.len())`, so for a body that is
longer than the limit by one or two bytes and has no valid UTF-8 prefix in
that window, it slices `body[..end_byte]` past the end of the body: on the
concrete request `reqBinary` (limit 1, body `[0xFF, 0xFF]`) the renderer
panics (`none`) instead of producing output.  The same body under an
`Unlimited` limit shows the intended invalid-UTF-8 line. -/
theorem request_display_panics_on_short_binary_body :
    reqBinary.display = none
    ∧ reqBinary.body.length = 2
    ∧ reqBinary.body_print_limit = BodyPrintLimit.Limited 1
    ∧ Request.display { reqBinary with body_print_limit := BodyPrintLimit.Unlimited }
        = some ("POST http://localhost/\n"
            ++ "Body is likely binary (invalid utf-8) size is 2 bytes\n") :=
  ⟨rfl, rfl, rfl, rfl⟩

/-- C9: whenever the handler trace of `HyperRequestHandler::call` awaits a
delay, the write lock is no longer held at that step, and there are earlier
steps — acquire, then compute, then release — strictly before the await. -/
theorem handler_releases_lock_before_delay (has_delay : Bool) (i : Nat)
    (h : (handlerTrace has_delay)[i]? = some ServerEvent.awaitDelay) :
    writeLockHeldAt (handlerTrace has_delay) i = false
    ∧ ∃ ja jc jr, ja < jc ∧ jc < jr ∧ jr < i
        ∧ (handlerTrace has_delay)[ja]? = some ServerEvent.acquireWriteLock
        ∧ (handlerTrace has_delay)[jc]? = some ServerEvent.computeResponse
        ∧ (handlerTrace has_delay)[jr]? = some ServerEvent.releaseWriteLock := by
  cases has_delay with
  | false =>
    exfalso
    have hlen : i < 4 := by
      by_contra hge
      rw [List.getElem?_eq_none (by simp [handlerTrace]; omega)] at h
      exact absurd h (by simp)
    interval_cases i <;> simp [handlerTrace] at h
  | true =>
    have hlen : i < 5 := by
      by_contra hge
      rw [List.getElem?_eq_none (by simp [handlerTrace]; omega)] at h
      exact absurd h (by simp)
    interval_cases i <;> simp [handlerTrace] at h
    exact ⟨by decide, 0, 1, 2, by decide, by decide, by decide, by decide, by decide,
      by decide⟩

/-- Witness for C9: the trace with a delay awaits it at step 3, after the
lock has been released. -/
theorem handler_releases_lock_before_delay_witness :
    ((handlerTrace true)[3]? = some ServerEvent.awaitDelay)
    ∧ (writeLockHeldAt (handlerTrace true) 3 = false
        ∧ ∃ ja jc jr, ja < jc ∧ jc < jr ∧ jr < 3
            ∧ (handlerTrace true)[ja]? = some ServerEvent.acquireWriteLock
            ∧ (handlerTrace true)[jc]? = some ServerEvent.computeResponse
            ∧ (handlerTrace true)[jr]? = some ServerEvent.releaseWriteLock) :=
  ⟨by decide, handler_releases_lock_before_delay true 3 (by decide)⟩

/-- C10: the counter invariant.  A freshly mounted mock satisfies it; every
`matches` call that returns `true` increments the counter by exactly one and
appends exactly the matched request while a `false` call changes nothing, so
the invariant — `n_matched` equals the number of recorded requests and never
exceeds the `max_n_matches` cap — is preserved by every call and by every
sequence of calls. -/
theorem matches_counter_invariant :
    (∀ spec pos, CounterInv (MountedMock.new spec pos))
    ∧ (∀ m r, CounterInv m →
        ((m.matches r).1 = true →
            (m.matches r).2.n_matched_requests = m.n_matched_requests + 1
              ∧ (m.matches r).2.matched_requests = m.matched_requests ++ [r])
          ∧ ((m.matches r).1 = false → (m.matches r).2 = m)
          ∧ CounterInv (m.matches r).2)
    ∧ ∀ m rs, CounterInv m → CounterInv (runMatches m rs).2 := by
  have hstep : ∀ m r, CounterInv m →
      ((m.matches r).1 = true →
          (m.matches r).2.n_matched_requests = m.n_matched_requests + 1
            ∧ (m.matches r).2.matched_requests = m.matched_requests ++ [r])
        ∧ ((m.matches r).1 = false → (m.matches r).2 = m)
        ∧ CounterInv (m.matches r).2 := by
    intro m r hInv
    refine ⟨matches_true_state m r, matches_false_state m r, ?_⟩
    by_cases hm : (m.matches r).1
    · obtain ⟨hn, hreq⟩ := matches_true_state m r hm
      constructor
      · rw [hn, hreq, List.length_append, hInv.1]
        rfl
      · intro k hk
        rw [matches_specification] at hk
        have hne : (some m.n_matched_requests == m.specification.max_n_matches) = false := by
          have hfst := matches_fst m r
          rw [hm] at hfst
          have := (Bool.and_eq_true _ _).mp hfst.symm
          simpa using this.1
        rw [hk] at hne
        simp only [beq_eq_false_iff_ne, ne_eq, Option.some.injEq] at hne
        have hle := hInv.2 k hk
        rw [hn]
        omega
    · simp only [Bool.not_eq_true] at hm
      rw [matches_false_state m r hm]
      exact hInv
  refine ⟨?_, hstep, ?_⟩
  · intro spec pos
    exact ⟨rfl, fun k _ => Nat.zero_le k⟩
  · intro m rs hInv
    induction rs generalizing m with
    | nil => exact hInv
    | cons r rs ih =>
      simp only [runMatches]
      exact ih _ ((hstep m r hInv).2.2)

/-- Witness for C10: the invariant, pushed through one further `matches`
call on the concrete exhausted mock. -/
theorem matches_counter_invariant_witness :
    CounterInv (runMatches mountedExhausted [req0]).2 :=
  matches_counter_invariant.2.2 mountedExhausted [req0]
    ⟨rfl, by
      intro k hk
      simp [mountedExhausted, mockMatchAll, mockPrio5] at hk ⊢
      omega⟩

end Wiremock
